import Mathlib

/-!
Verification development for the environment/package resolution engine of
vscode-python-environments (pipenv manager core).

Conventions used throughout:
- file-system paths are modelled as lists of normalized path segments
  (`FsPath`), so `path.normalize` is the identity and `path.dirname` is
  `List.dropLast`;
- JavaScript `undefined` and the falsy empty string are both modelled as
  `Option.none` where the source relies on truthiness;
- asynchronous external collaborators (native finder, persistent state,
  interactive progress) are modelled as explicit parameters carrying their
  outcome, so every operation is a pure state transformer.
-/

/- ### Version comparison (managers/common/utils.ts)

The implementation file of `compareVersions` and `isGreater` is not part of the
corpus; only its unit tests are (src/src/test/managers/common/utils.unit.test.ts).
The definitions below are modelled from the spec, section 4.2. -/

/-- Modelled from the spec: a version segment parses as its leading numeric
part, best effort, like JavaScript parseInt; a segment with no leading digit
parses to `none` (NaN), which compares neither greater nor less. -/
def parseIntLeading (cs : List Char) : Option Nat :=
  let digits := cs.takeWhile Char.isDigit
  if digits.isEmpty then none
  else some (digits.foldl (fun n c => n * 10 + (c.toNat - 48)) 0)

/-- Split a character list on the dot character, the way the JavaScript
split(".") behaves: the empty input yields one empty segment, a trailing dot
yields a trailing empty segment. -/
def splitDots : List Char → List (List Char)
  | [] => [[]]
  | c :: rest =>
    let r := splitDots rest
    if c = '.' then [] :: r
    else
      match r with
      | [] => [[c]]
      | seg :: segs => (c :: seg) :: segs

/-- One step of the left-to-right segment comparison: numeric segments compare
by value, a NaN segment makes both strict comparisons false so the scan moves
on to `rest`. -/
def cmpStep (x y : Option Nat) (rest : Int) : Int :=
  match x, y with
  | some a, some b => if b < a then 1 else if a < b then -1 else rest
  | _, _ => rest

/-- Comparison of padding zeros against the remaining right-hand segments,
used when the left version ran out of segments. -/
def cmpZeros : List (Option Nat) → Int
  | [] => 0
  | y :: ys => cmpStep (some 0) y (cmpZeros ys)

/-- Modelled from the spec: compare parsed version segments left to right; a
missing trailing segment is padded with 0, which agrees with the unit tests
(compareVersions of 3.10.1 and 3.10 is 1) and with the concrete example in the
spec (3.10 equals 3.10.0). -/
def cmpSegs : List (Option Nat) → List (Option Nat) → Int
  | [], ys => cmpZeros ys
  | x :: xs, [] => cmpStep x (some 0) (cmpSegs xs [])
  | x :: xs, y :: ys => cmpStep x y (cmpSegs xs ys)

/-- Segments of a version string: split on the dot, parse each segment. -/
def versionSegs (s : String) : List (Option Nat) :=
  (splitDots s.data).map parseIntLeading

/-- Modelled from the spec: `compareVersions` from managers/common/utils.ts,
section 4.2 of the spec (split on dots, compare numeric segments left to
right). -/
def compareVersions (a b : String) : Int :=
  cmpSegs (versionSegs a) (versionSegs b)

/-- Modelled from the spec: strict-greater on optional versions; having a
version beats not having one, and two absent versions are not greater, so the
first-seen element wins stable ties. The empty string stands for an absent
version (JS falsiness). -/
def isGreaterS (a b : String) : Bool :=
  if a.isEmpty then false
  else if b.isEmpty then true
  else compareVersions a b == 1

theorem cmpStep_neg (x y : Option Nat) (r : Int) :
    cmpStep x y (-r) = -cmpStep y x r := by
  cases x with
  | none => cases y <;> simp [cmpStep]
  | some a =>
    cases y with
    | none => simp [cmpStep]
    | some b =>
      simp only [cmpStep]
      rcases lt_trichotomy a b with h | h | h
      · simp [h, not_lt.mpr h.le]
      · subst h
        simp [lt_irrefl]
      · simp [h, not_lt.mpr h.le]

theorem cmpSegs_self (l : List (Option Nat)) : cmpSegs l l = 0 := by
  induction l with
  | nil => rfl
  | cons x xs ih =>
    cases x <;> simp [cmpSegs, cmpStep, ih]

theorem cmpZeros_eq_neg (l : List (Option Nat)) : cmpZeros l = -cmpSegs l [] := by
  induction l with
  | nil => rfl
  | cons x xs ih =>
    show cmpStep (some 0) x (cmpZeros xs) = -cmpSegs (x :: xs) []
    rw [ih, cmpStep_neg, cmpSegs]

theorem cmpSegs_antisymm (l m : List (Option Nat)) :
    cmpSegs l m = -cmpSegs m l := by
  induction l generalizing m with
  | nil =>
    show cmpZeros m = -cmpSegs m []
    exact cmpZeros_eq_neg m
  | cons x xs ih =>
    cases m with
    | nil =>
      show cmpSegs (x :: xs) [] = -cmpZeros (x :: xs)
      rw [cmpZeros_eq_neg, neg_neg]
    | cons y ys =>
      rw [cmpSegs, cmpSegs, ih ys, cmpStep_neg]

/-- Claim C7: for all version strings a and b, compare is antisymmetric and
reflexively zero, and a missing trailing segment does not make a version
smaller: compare of 3.10 and 3.10.0 is 0. -/
theorem compareVersions_c7 :
    (∀ a b : String, compareVersions a b = -compareVersions b a) ∧
    (∀ a : String, compareVersions a a = 0) ∧
    compareVersions "3.10" "3.10.0" = 0 := by
  refine ⟨fun a b => cmpSegs_antisymm _ _, fun a => cmpSegs_self _, ?_⟩
  decide

/- ### Package cache and differ (src/src/managers/pipenv/main.ts) -/

/-- Package change kinds, from PackageChangeKind in the api surface. -/
inductive PackageChangeKind
  | add
  | remove
deriving DecidableEq, Repr

/-- A package record; only the name takes part in identity and diffing. -/
structure Pkg where
  name : String
deriving DecidableEq, Repr

/-- From getChanges, src/src/managers/pipenv/main.ts lines 58 to 67: every
entry of `before` becomes a remove entry and every entry of `after` becomes an
add entry, with no set difference at all. -/
def getChanges (before after : List Pkg) : List (PackageChangeKind × Pkg) :=
  before.map (fun p => (PackageChangeKind.remove, p))
    ++ after.map (fun p => (PackageChangeKind.add, p))

/-- The per-manager package cache, environment id to package list, modelling
the private field `packages : Map<string, Package[]>`. -/
def PkgCache := List (String × List Pkg)

/-- `this.packages.get(id) ?? []`. -/
def cacheGet (c : PkgCache) (envId : String) : List Pkg :=
  match List.find? (fun q => q.1 == envId) c with
  | some q => q.2
  | none => []

/-- `this.packages.set(id, v)`: replace the entry for the key, or append. -/
def cacheSet : PkgCache → String → List Pkg → PkgCache
  | [], k, v => [(k, v)]
  | (k1, v1) :: rest, k, v =>
    if k1 == k then (k, v) :: rest else (k1, v1) :: cacheSet rest k v

/-- A fired PackagesChanged event. -/
structure PkgEvent where
  envId : String
  changes : List (PackageChangeKind × Pkg)
deriving DecidableEq, Repr

/-- From PipenvPackageManager.refresh, src/src/managers/pipenv/main.ts lines
169 to 190: the new package list `after` is the outcome of the external
pipenv listing; the cache entry is replaced unconditionally and the event
fires only when the change list is non-empty. -/
def PipenvPackageManager.refresh (cache : PkgCache) (envId : String)
    (after : List Pkg) : PkgCache × List PkgEvent :=
  let before := cacheGet cache envId
  let changes := getChanges before after
  (cacheSet cache envId after,
    if changes.length > 0 then [⟨envId, changes⟩] else [])

/-- The diff as the spec words it, for comparison with getChanges: names in
`after` and not in `before` as add entries, names in `before` and not in
`after` as remove entries. -/
def specDiff (before after : List Pkg) : List (PackageChangeKind × Pkg) :=
  (before.filter (fun p => !(after.any (fun q => q.name == p.name)))).map
      (fun p => (PackageChangeKind.remove, p))
    ++ (after.filter (fun p => !(before.any (fun q => q.name == p.name)))).map
      (fun p => (PackageChangeKind.add, p))

/-- Claim C1, counterexample: with the same non-empty list on both sides the
diff the spec describes is empty, yet getChanges is non-empty and a refresh
with an unchanged package list still fires a PackagesChanged event. -/
theorem getChanges_c1_counterexample :
    specDiff [⟨"numpy"⟩] [⟨"numpy"⟩] = [] ∧
    getChanges [⟨"numpy"⟩] [⟨"numpy"⟩] ≠ [] ∧
    (PipenvPackageManager.refresh [("env-1", [⟨"numpy"⟩])] "env-1"
        [⟨"numpy"⟩]).2 ≠ [] := by
  decide

/-- Claim C1, amended: getChanges returns a remove entry for every package of
`before` followed by an add entry for every package of `after` (conservative
full replace), so the diff of a list with itself is empty only when the list
is empty; PipenvPackageManager.refresh fires a PackagesChanged event exactly
when this change list is non-empty, that is, unless the cached list and the
new list are both empty. -/
theorem getChanges_c1_amended (before after : List Pkg) (cache : PkgCache)
    (envId : String) :
    ((getChanges before after).filter
        (fun c => c.1 == PackageChangeKind.remove)).map Prod.snd = before ∧
    ((getChanges before after).filter
        (fun c => c.1 == PackageChangeKind.add)).map Prod.snd = after ∧
    (getChanges before after = [] ↔ (before = [] ∧ after = [])) ∧
    ((PipenvPackageManager.refresh cache envId after).2 = [] ↔
      (cacheGet cache envId = [] ∧ after = [])) := by
  refine ⟨?_, ?_, ?_, ?_⟩
  · simp [getChanges, List.filter_append, List.filter_map, Function.comp_def,
      List.map_map]
  · simp [getChanges, List.filter_append, List.filter_map, Function.comp_def,
      List.map_map]
  · simp [getChanges]
  · have h : ∀ b a : List Pkg, getChanges b a = [] ↔ (b = [] ∧ a = []) := by
      intro b a
      simp [getChanges]
    simp only [PipenvPackageManager.refresh]
    constructor
    · intro hfired
      by_cases hlen : (getChanges (cacheGet cache envId) after).length > 0
      · simp [hlen] at hfired
      · have : getChanges (cacheGet cache envId) after = [] :=
          List.eq_nil_of_length_eq_zero (by omega)
        exact (h _ _).mp this
    · intro hboth
      have : getChanges (cacheGet cache envId) after = [] :=
        (h _ _).mpr hboth
      simp [this]

/- ### Environments and path containment (src/src/managers/pipenv/pipenvManager.ts) -/

/-- A file-system path as a list of normalized segments; `path.dirname` is
`List.dropLast` and `path.basename` is the last segment. -/
abbrev FsPath := List String

/-- A discovered Python environment. `environmentPath` is the install path
(the pipenv prefix, also used as sysPrefix in the source), `execRun` the run
executable recorded in execInfo. -/
structure Env where
  name : String
  displayName : String
  version : String
  environmentPath : FsPath
  execRun : FsPath
deriving DecidableEq, Repr

/-- From findEnvironmentByPath, pipenvManager.ts lines 240 to 246: the
candidate environment path `n` matches the query when it equals the query or
its dirname or double dirname equals the query, that is, when the environment
install path lies at most two directories below the query path. -/
def pathMatches (query n : FsPath) : Bool :=
  n == query || n.dropLast == query || n.dropLast.dropLast == query

/-- From findEnvironmentByPath, pipenvManager.ts lines 240 to 246 (the same
function appears in the alternate pipenvManager source at part 003 lines 375
to 381): first element of the collection whose install path matches. -/
def findEnvironmentByPath (collection : List Env) (fsPath : FsPath) :
    Option Env :=
  collection.find? (fun e => pathMatches fsPath e.environmentPath)

/-- The containment check as the claim words it: the query path equals the
install path or is nested one or two directories below it. -/
def specPathContains (query n : FsPath) : Bool :=
  query == n || query.dropLast == n || query.dropLast.dropLast == n

/-- An example environment living at home/proj/.venv. -/
def envVenv : Env :=
  { name := "proj-venv"
    displayName := "pipenv (3.10.1)"
    version := "3.10.1"
    environmentPath := ["home", "proj", ".venv"]
    execRun := ["home", "proj", ".venv", "bin", "python"] }

/-- Claim C3, counterexample: the code check runs in the direction opposite to
the claim. The project directory home/proj, which is one level above the
install path, does match (and findEnvironmentByPath returns the environment
for it), although it is neither the install path nor nested below it; while
home/proj/.venv/bin, nested one directory below the install path, does not
match although the claim says it must. -/
theorem pathMatches_c3_counterexample :
    pathMatches ["home", "proj"] ["home", "proj", ".venv"] = true ∧
    specPathContains ["home", "proj"] ["home", "proj", ".venv"] = false ∧
    findEnvironmentByPath [envVenv] ["home", "proj"] = some envVenv ∧
    pathMatches ["home", "proj", ".venv", "bin"] ["home", "proj", ".venv"]
      = false ∧
    specPathContains ["home", "proj", ".venv", "bin"]
      ["home", "proj", ".venv"] = true := by
  decide

theorem dropLast_eq_iff (l p : List String) :
    l.dropLast = p ↔ ((l = [] ∧ p = []) ∨ ∃ x, l = p ++ [x]) := by
  constructor
  · intro h
    rcases List.eq_nil_or_concat l with hnil | ⟨l2, x, hx⟩
    · left
      subst hnil
      exact ⟨rfl, h.symm⟩
    · right
      rw [List.concat_eq_append] at hx
      subst hx
      rw [List.dropLast_concat] at h
      exact ⟨x, by rw [h]⟩
  · rintro (⟨hl, hp⟩ | ⟨x, hx⟩)
    · subst hl
      subst hp
      rfl
    · subst hx
      exact List.dropLast_concat ..

/-- Claim C3, amended: a query path p matches an environment whose install
path is n exactly when p equals n, or n is nested one or two directories
below p (accommodating layouts such as a venv inside the queried project
directory); install paths three or more directories below p, and unrelated
paths, never match. -/
theorem pathMatches_c3_amended (p n : FsPath) :
    pathMatches p n = true ↔
      (n = p ∨ (∃ x, n = p ++ [x]) ∨ (∃ x y, n = p ++ [x, y])) := by
  simp only [pathMatches, Bool.or_eq_true, beq_iff_eq]
  constructor
  · rintro ((h | h) | h)
    · exact Or.inl h
    · rcases (dropLast_eq_iff n p).mp h with ⟨hn, hp⟩ | ⟨x, hx⟩
      · exact Or.inl (by rw [hn, hp])
      · exact Or.inr (Or.inl ⟨x, hx⟩)
    · rcases (dropLast_eq_iff n.dropLast p).mp h with ⟨hn, hp⟩ | ⟨x, hx⟩
      · rcases (dropLast_eq_iff n []).mp hn with ⟨hn2, _⟩ | ⟨y, hy⟩
        · exact Or.inl (by rw [hn2, hp])
        · exact Or.inr (Or.inl ⟨y, by rw [hy, hp]⟩)
      · rcases (dropLast_eq_iff n (p ++ [x])).mp (by rw [hx]) with ⟨hn2, hpx⟩ | ⟨y, hy⟩
        · exact absurd hpx (by simp)
        · exact Or.inr (Or.inr ⟨x, y, by rw [hy]; simp⟩)
  · rintro (h | ⟨x, hx⟩ | ⟨x, y, hxy⟩)
    · exact Or.inl (Or.inl h)
    · subst hx
      exact Or.inl (Or.inr (List.dropLast_concat ..))
    · subst hxy
      refine Or.inr ?_
      have h1 : p ++ [x, y] = (p ++ [x]) ++ [y] := by simp
      rw [h1, List.dropLast_concat, List.dropLast_concat]

/- ### Discovery records and refreshPipenv (pipenvManager.ts lines 249 to 305) -/

/-- Kinds of native records; the engine keeps only pipenv environments, other
kinds (other environment kinds, or tool-manager records filtered out by
isNativeEnvInfo) are grouped as `other`. -/
inductive NativeKind
  | pipenv
  | other
deriving DecidableEq, Repr

/-- A raw environment record from the discovery adapter (NativeEnvInfo).
`none` models both an undefined field and the falsy empty string. -/
structure NativeEnvInfo where
  kind : NativeKind
  installPath : Option FsPath
  executable : Option FsPath
  version : Option String
  name : Option String
  displayName : Option String
deriving DecidableEq, Repr

/-- The validation gate of refreshPipenv: the record must carry an install
path, an executable and a version. -/
def validInfo (i : NativeEnvInfo) : Bool :=
  i.installPath.isSome && i.executable.isSome && i.version.isSome

/-- Construction of the environment item from a validated record, following
the body of refreshPipenv: name falls back from record name to display name
to the basename of the install path; display name falls back to
"pipenv (version)". -/
def buildEnv (installPath executable : FsPath) (version : String)
    (nameOpt displayNameOpt : Option String) : Env :=
  let displayName :=
    match displayNameOpt with
    | some d => d
    | none => "pipenv (" ++ version ++ ")"
  let name :=
    match nameOpt with
    | some n => n
    | none =>
      match displayNameOpt with
      | some d => d
      | none => installPath.getLastD ""
  { name := name
    displayName := displayName
    version := version
    environmentPath := installPath
    execRun := executable }

/-- One record of the discovery output processed by refreshPipenv: records of
the wrong kind are filtered out, incomplete records are logged and dropped in
their entirety (the loop moves on to the next record), complete pipenv
records become environment items. -/
def envOfInfo (i : NativeEnvInfo) : Option Env :=
  if i.kind == NativeKind.pipenv then
    match i.installPath, i.executable, i.version with
    | some p, some x, some v => some (buildEnv p x v i.name i.displayName)
    | _, _, _ => none
  else none

/-- Lexicographic order on segment paths, modelling localeCompare of the
joined path strings. -/
def pathLE : FsPath → FsPath → Bool
  | [], _ => true
  | _ :: _, [] => false
  | a :: as, b :: bs => a < b || (a == b && pathLE as bs)

/-- Modelled from the spec: the total order of section 4.2 — highest version
first, then lexical name, then lexical install path; `envLE a b` says a
sorts no later than b. -/
def envLE (a b : Env) : Bool :=
  if a.version == b.version then
    if a.name == b.name then pathLE a.environmentPath b.environmentPath
    else a.name < b.name
  else isGreaterS a.version b.version

/-- Modelled from the spec: sortEnvironments from managers/common/utils.ts is
not part of the corpus; the spec fixes only the comparison order, so the sort
is modelled as an insertion sort by that order (only the permutation property
is used by the theorems below). -/
def sortEnvironments (collection : List Env) : List Env :=
  List.insertionSort (fun a b => envLE a b = true) collection

/-- Modelled from the spec: getLatest from managers/common/utils.ts picks the
most-preferred environment by strict version comparison, first seen winning
ties; empty collection yields none. -/
def getLatest : List Env → Option Env
  | [] => none
  | e :: rest =>
    some (rest.foldl
      (fun latest x => if isGreaterS x.version latest.version then x else latest) e)

/-- From refreshPipenv, pipenvManager.ts lines 249 to 305: filter the
discovery output down to pipenv records, validate and convert each record,
sort the resulting collection. -/
def refreshPipenv (data : List NativeEnvInfo) : List Env :=
  sortEnvironments (data.filterMap envOfInfo)

/-- A complete discovery record, used by concrete witnesses below. -/
def goodRec : NativeEnvInfo :=
  { kind := NativeKind.pipenv
    installPath := some ["home", "proj", ".venv"]
    executable := some ["home", "proj", ".venv", "bin", "python"]
    version := some "3.10.1"
    name := none
    displayName := none }

/-- A pipenv discovery record with no version, hence invalid. -/
def badRec : NativeEnvInfo :=
  { kind := NativeKind.pipenv
    installPath := some ["opt", "venvs", "broken"]
    executable := some ["opt", "venvs", "broken", "bin", "python"]
    version := none
    name := none
    displayName := none }

/-- Claim C9: an incomplete record produces no environment at all (never a
partial one), removing it from the discovery output leaves the refresh result
unchanged up to ordering (processing of the remaining records continues), and
a record is admitted exactly when it is a pipenv record carrying an install
path, an executable path and a version. -/
theorem refreshPipenv_c9 (data1 data2 : List NativeEnvInfo)
    (i j : NativeEnvInfo) (hkind : i.kind = NativeKind.pipenv)
    (hinvalid : validInfo i = false) :
    envOfInfo i = none ∧
    List.Perm (refreshPipenv (data1 ++ i :: data2))
      (refreshPipenv (data1 ++ data2)) ∧
    ((envOfInfo j).isSome ↔
      (j.kind = NativeKind.pipenv ∧ validInfo j = true)) := by
  have hnone : envOfInfo i = none := by
    rcases i with ⟨k, ip, ex, v, nm, dn⟩
    simp only [validInfo] at hinvalid
    simp only [envOfInfo, hkind]
    cases ip <;> cases ex <;> cases v <;> simp_all
  refine ⟨hnone, ?_, ?_⟩
  · have h1 : (data1 ++ i :: data2).filterMap envOfInfo
        = (data1 ++ data2).filterMap envOfInfo := by
      simp [List.filterMap_append, List.filterMap_cons, hnone]
    simp only [refreshPipenv, h1]
    exact List.Perm.refl _
  · rcases j with ⟨k, ip, ex, v, nm, dn⟩
    cases k <;> cases ip <;> cases ex <;> cases v <;>
      simp [envOfInfo, validInfo]

/-- Claim C9, witness: the perm fact at a concrete discovery output holding
one complete and one incomplete record. -/
theorem refreshPipenv_c9_witness :
    envOfInfo badRec = none ∧
    List.Perm (refreshPipenv [goodRec, badRec]) (refreshPipenv [goodRec]) ∧
    ((envOfInfo goodRec).isSome ↔
      (goodRec.kind = NativeKind.pipenv ∧ validInfo goodRec = true)) :=
  refreshPipenv_c9 [goodRec] [] badRec goodRec rfl rfl

/- ### Manager state, scope resolution and refresh (pipenvManager.ts) -/

/-- Environment change kinds, from EnvironmentChangeKind in the api surface. -/
inductive EnvironmentChangeKind
  | add
  | remove
deriving DecidableEq, Repr

/-- State of a PipenvManager instance: the environment collection, the
path-to-environment bindings and the designated global environment. -/
structure ManagerState where
  collection : List Env
  fsPathToEnv : List (FsPath × Env)
  globalEnv : Option Env
deriving DecidableEq, Repr

/-- `this.fsPathToEnv.get(p)`. -/
def lookupBinding : List (FsPath × Env) → FsPath → Option Env
  | [], _ => none
  | (k1, v1) :: rest, p => if k1 == p then some v1 else lookupBinding rest p

/-- `this.fsPathToEnv.set(p, env)`: replace the entry for the key, or append. -/
def bindSet : List (FsPath × Env) → FsPath → Env → List (FsPath × Env)
  | [], k, v => [(k, v)]
  | (k1, v1) :: rest, k, v =>
    if k1 == k then (k, v) :: rest else (k1, v1) :: bindSet rest k v

/-- The external collaborators consumed by the manager, with their outcomes as
functions: the registered project roots and the project owning a path
(PythonProjectManager through the api), the persisted global and
per-workspace selections (pipenvUtils persistent state), the native finder
resolution already composed with the pipenv-kind and completeness validation
and item construction of resolvePipenvPath, and the pipenv venv lookup. -/
structure ExternalApi where
  projects : List FsPath
  projectFor : FsPath → Option FsPath
  persistedGlobal : Option FsPath
  persistedWs : FsPath → Option FsPath
  resolveNative : FsPath → Option Env
  pipenvVenv : FsPath → Option FsPath

/-- The project-associated environments of loadEnvMap ("pathSorted"): the
collection filtered to environments whose install path lies in a registered
project, sorted by install path length (ties keep their relative order, as
the source comparator returns the length difference). -/
def sortProjEnvs (api : ExternalApi) (coll : List Env) : List Env :=
  List.insertionSort
    (fun a b => a.environmentPath.length ≤ b.environmentPath.length)
    (coll.filter (fun e => (api.projectFor e.environmentPath).isSome))

/-- One project iteration of the loadEnvMap loop, from the alternate
pipenvManager source (part 003, lines 280 to 358): a persisted workspace
selection is looked up in the collection and otherwise resolved externally
(possibly growing the collection); without a persisted selection, a single
project-associated environment is bound implicitly, otherwise the environment
whose owning project is this path is bound when present. -/
def loadStep (api : ExternalApi) (pathSorted : List Env)
    (acc : List Env × List (FsPath × Env)) (p : FsPath) :
    List Env × List (FsPath × Env) :=
  match api.persistedWs p with
  | some envPath =>
    match findEnvironmentByPath acc.1 envPath with
    | some found => (acc.1, bindSet acc.2 p found)
    | none =>
      let resolvedEnvPath :=
        match api.pipenvVenv p with
        | some venv => venv
        | none => envPath
      match api.resolveNative resolvedEnvPath with
      | some env => (acc.1 ++ [env], bindSet acc.2 p env)
      | none => (acc.1, acc.2)
  | none =>
    match pathSorted with
    | [u] => (acc.1, bindSet acc.2 p u)
    | _ =>
      match pathSorted.find?
          (fun e => api.projectFor e.environmentPath == some p) with
      | some found => (acc.1, bindSet acc.2 p found)
      | none => (acc.1, acc.2)

/-- From PipenvManager.loadEnvMap in the alternate pipenvManager source
(part 003, lines 213 to 359; the source under src/src keeps the same shape
without the persisted selections and the single-candidate branch): resolve
the persisted global selection against the collection or the native finder,
fall back to the latest environment, then walk the registered projects
building the binding map. -/
def PipenvManager.loadEnvMap (api : ExternalApi) (collection : List Env) :
    ManagerState :=
  let globalRes : List Env × Option Env :=
    match api.persistedGlobal with
    | some fsPath =>
      match findEnvironmentByPath collection fsPath with
      | some e => (collection, some e)
      | none =>
        match api.resolveNative fsPath with
        | some env => (collection ++ [env], some env)
        | none => (collection, none)
    | none => (collection, none)
  let coll1 := globalRes.1
  let g :=
    match globalRes.2 with
    | some e => some e
    | none => getLatest coll1
  let pathSorted := sortProjEnvs api coll1
  let final := api.projects.foldl (loadStep api pathSorted) (coll1, [])
  { collection := final.1, fsPathToEnv := final.2, globalEnv := g }

/-- From PipenvManager.refresh, pipenvManager.ts lines 106 to 129 (identical
in the alternate source, lines 114 to 137), for an undefined scope (a path
scope is a no-op in the source): remember the old collection, replace it with
the freshly discovered one, rebuild the binding map, then fire exactly one
EnvironmentsChanged event holding a remove entry for every discarded
environment followed by an add entry for every environment of the new
collection. -/
def PipenvManager.refresh (api : ExternalApi) (st : ManagerState)
    (data : List NativeEnvInfo) :
    ManagerState × List (List (EnvironmentChangeKind × Env)) :=
  let discard := st.collection
  let st2 := PipenvManager.loadEnvMap api (refreshPipenv data)
  (st2,
    [discard.map (fun e => (EnvironmentChangeKind.remove, e))
      ++ st2.collection.map (fun e => (EnvironmentChangeKind.add, e))])

/-- Claim C2: a refresh fires exactly one EnvironmentsChanged event; its
entry list is the removals of the whole old collection followed by the
additions of the whole new collection, its length is the sum of both sizes
(so identical environments across the two sets are still removed and
re-added), and every old environment occurs as a remove entry, every new one
as an add entry. -/
theorem PipenvManager.refresh_c2 (api : ExternalApi) (st : ManagerState)
    (data : List NativeEnvInfo) :
    ∃ entries,
      (PipenvManager.refresh api st data).2 = [entries] ∧
      entries
        = st.collection.map (fun e => (EnvironmentChangeKind.remove, e))
          ++ (PipenvManager.refresh api st data).1.collection.map
              (fun e => (EnvironmentChangeKind.add, e)) ∧
      entries.length
        = st.collection.length
          + (PipenvManager.refresh api st data).1.collection.length ∧
      (∀ e, e ∈ st.collection → (EnvironmentChangeKind.remove, e) ∈ entries) ∧
      (∀ e, e ∈ (PipenvManager.refresh api st data).1.collection →
        (EnvironmentChangeKind.add, e) ∈ entries) := by
  refine ⟨_, rfl, rfl, ?_, ?_, ?_⟩
  · simp only [List.length_append, List.length_map]
    rfl
  · intro e he
    exact List.mem_append_left _ (List.mem_map_of_mem _ he)
  · intro e he
    exact List.mem_append_right _ (List.mem_map_of_mem _ he)

/-- An external collaborator with one registered project and nothing
persisted, used by concrete witnesses. -/
def apiPlain : ExternalApi :=
  { projects := [["home", "proj"]]
    projectFor := fun p =>
      if p = ["home", "proj"] ∨ p = ["home", "proj", ".venv"]
      then some ["home", "proj"] else none
    persistedGlobal := none
    persistedWs := fun _ => none
    resolveNative := fun _ => none
    pipenvVenv := fun _ => none }

/-- Claim C2, witness: a concrete refresh over a one-element collection and a
two-record discovery output fires exactly one event. -/
theorem PipenvManager.refresh_c2_witness :
    (PipenvManager.refresh apiPlain ⟨[envVenv], [], none⟩
        [goodRec, badRec]).2.length = 1 := by
  obtain ⟨entries, h1, -⟩ :=
    PipenvManager.refresh_c2 apiPlain ⟨[envVenv], [], none⟩ [goodRec, badRec]
  rw [h1]
  rfl

/-- From PipenvManager.resolve, pipenvManager.ts lines 171 to 190: `resolved`
is the outcome of resolvePipenvPath (native resolution, pipenv-kind check,
validation, item construction). When resolution succeeds, an environment of
the collection whose install path matches the resolved install path is
returned unchanged; otherwise the resolved environment is appended to the
collection and a single-add EnvironmentsChanged event fires. -/
def PipenvManager.resolve (st : ManagerState) (resolved : Option Env) :
    Option Env × ManagerState × List (List (EnvironmentChangeKind × Env)) :=
  match resolved with
  | none => (none, st, [])
  | some env =>
    match findEnvironmentByPath st.collection env.environmentPath with
    | some ex => (some ex, st, [])
    | none =>
      (some env,
        { st with collection := st.collection ++ [env] },
        [[(EnvironmentChangeKind.add, env)]])

/-- Claim C10: when some environment of the collection already matches the
resolved install path, resolve returns an existing collection entry and
changes neither the collection nor the event stream; when none matches,
exactly one environment is appended and exactly one single-add
EnvironmentsChanged event fires, so resolve never duplicates an entry for an
installation already in the collection. -/
theorem PipenvManager.resolve_c10 (st : ManagerState) (env : Env) :
    ((∃ e, e ∈ st.collection ∧
        pathMatches env.environmentPath e.environmentPath = true) →
      ((PipenvManager.resolve st (some env)).2.1 = st ∧
       (PipenvManager.resolve st (some env)).2.2 = [] ∧
       ∃ ex, ex ∈ st.collection ∧
         (PipenvManager.resolve st (some env)).1 = some ex)) ∧
    ((∀ e, e ∈ st.collection →
        pathMatches env.environmentPath e.environmentPath = false) →
      PipenvManager.resolve st (some env) =
        (some env,
          { collection := st.collection ++ [env]
            fsPathToEnv := st.fsPathToEnv
            globalEnv := st.globalEnv },
          [[(EnvironmentChangeKind.add, env)]])) := by
  constructor
  · intro h
    have hsome : (findEnvironmentByPath st.collection env.environmentPath).isSome := by
      rw [findEnvironmentByPath, List.find?_isSome]
      rcases h with ⟨e, he, hm⟩
      exact ⟨e, he, hm⟩
    obtain ⟨ex, hex⟩ := Option.isSome_iff_exists.mp hsome
    have hmem : ex ∈ st.collection := List.mem_of_find?_eq_some hex
    simp only [PipenvManager.resolve, findEnvironmentByPath] at *
    rw [hex]
    exact ⟨rfl, rfl, ex, hmem, rfl⟩
  · intro h
    have hnone : findEnvironmentByPath st.collection env.environmentPath = none := by
      rw [findEnvironmentByPath, List.find?_eq_none]
      intro e he
      simp [h e he]
    simp only [PipenvManager.resolve]
    rw [hnone]

/-- Claim C10, witness: resolving an installation already in the collection
returns it and leaves state and events unchanged. -/
theorem PipenvManager.resolve_c10_witness :
    (PipenvManager.resolve ⟨[envVenv], [], none⟩ (some envVenv)).2.1
        = ⟨[envVenv], [], none⟩ ∧
    (PipenvManager.resolve ⟨[envVenv], [], none⟩ (some envVenv)).2.2 = [] := by
  have h := (PipenvManager.resolve_c10 ⟨[envVenv], [], none⟩ envVenv).1
    ⟨envVenv, by simp, by decide⟩
  exact ⟨h.1, h.2.1⟩

/- ### One-shot initialization (pipenvManager.ts lines 59 to 83) -/

/-- Observable state of the initialization guard: whether the
single-assignment deferred marker exists, and how many discovery enumerations
initialize has triggered. -/
structure InitState where
  marker : Bool
  discoveryCalls : Nat
deriving DecidableEq, Repr

/-- From PipenvManager.initialize: a call that finds the marker in place
awaits it and returns; the first call creates the marker and only then
suspends on the discovery. The check and the assignment happen with no
intervening suspension point, so under the single-threaded cooperative
scheduling model each call takes effect atomically. -/
def PipenvManager.initializeStep (s : InitState) : InitState :=
  if s.marker then s
  else { marker := true, discoveryCalls := s.discoveryCalls + 1 }

/-- The state after any number of initialize calls, starting from a fresh
manager (concurrent or sequential: under the atomicity argument above every
interleaving of n calls is this same iteration). -/
def runInitializeCalls : Nat → InitState
  | 0 => { marker := false, discoveryCalls := 0 }
  | n + 1 => PipenvManager.initializeStep (runInitializeCalls n)

theorem runInitializeCalls_pos (n : Nat) (hn : 1 ≤ n) :
    runInitializeCalls n = { marker := true, discoveryCalls := 1 } := by
  induction n with
  | zero => omega
  | succ k ih =>
    by_cases hk : 1 ≤ k
    · rw [runInitializeCalls, ih hk]
      rfl
    · have : k = 0 := by omega
      subst this
      rfl

/-- Claim C5: however many initialize calls are made, discovery runs at most
once (exactly once as soon as there is one call), the marker is created by
the first call and never re-created, and every call after the first leaves
the state exactly as the first call left it. -/
theorem initialize_c5 (n m : Nat) (hm : 1 ≤ m) :
    (runInitializeCalls n).discoveryCalls ≤ 1 ∧
    (runInitializeCalls n).discoveryCalls = min n 1 ∧
    (runInitializeCalls n).marker = decide (1 ≤ n) ∧
    runInitializeCalls m = runInitializeCalls 1 := by
  rcases Nat.eq_zero_or_pos n with hn | hn
  · subst hn
    exact ⟨by decide, by decide, by decide,
      by rw [runInitializeCalls_pos m hm]; rfl⟩
  · rw [runInitializeCalls_pos n hn, runInitializeCalls_pos m hm]
    refine ⟨by decide, ?_, ?_, rfl⟩
    · show 1 = min n 1
      omega
    · show true = decide (1 ≤ n)
      exact (decide_eq_true hn).symm
/-- Claim C5, witness: three initialize calls still yield a single discovery
invocation. -/
theorem initialize_c5_witness :
    (runInitializeCalls 3).discoveryCalls ≤ 1 ∧
    (runInitializeCalls 3).discoveryCalls = min 3 1 ∧
    (runInitializeCalls 3).marker = decide (1 ≤ 3) ∧
    runInitializeCalls 2 = runInitializeCalls 1 :=
  initialize_c5 3 2 (by omega)

/- ### Package management and cancellation (main.ts lines 89 to 167) -/

/-- Failure modes of the pipenv subprocess run: the CancellationError raised
by the execution substrate, or any other failure. -/
inductive ManageError
  | cancelled
  | failure
deriving DecidableEq, Repr

/-- The install, uninstall and upgrade request of manage. -/
structure ManageOptions where
  install : List String
  uninstall : List String
  upgrade : Bool
deriving DecidableEq, Repr

/-- Everything observable about one manage call: the cache afterwards, the
PackagesChanged events fired, the outcome surfaced to the caller, and whether
an error was logged. -/
structure ManageOutcome where
  cache : PkgCache
  events : List PkgEvent
  result : Except ManageError Unit
  loggedError : Bool

/-- From PipenvPackageManager.manage, src/src/managers/pipenv/main.ts lines 89
to 140: with nothing to install or uninstall the call is a logged no-op that
never reaches the subprocess; otherwise `run` is the combined outcome of
managePipenvPackages (uninstall before install, then relisting). On success
the cache entry is replaced and one PackagesChanged event fires; a
CancellationError is rethrown untouched before the error logging; any other
error is logged, reported and rethrown, and in both error paths the cache is
not written and no event fires. -/
def PipenvPackageManager.manage (cache : PkgCache) (envId : String)
    (opts : ManageOptions) (run : Except ManageError (List Pkg)) :
    ManageOutcome :=
  if opts.install.isEmpty && opts.uninstall.isEmpty then
    { cache := cache, events := [], result := Except.ok (), loggedError := false }
  else
    match run with
    | Except.ok after =>
      { cache := cacheSet cache envId after
        events := [⟨envId, getChanges (cacheGet cache envId) after⟩]
        result := Except.ok ()
        loggedError := false }
    | Except.error ManageError.cancelled =>
      { cache := cache
        events := []
        result := Except.error ManageError.cancelled
        loggedError := false }
    | Except.error ManageError.failure =>
      { cache := cache
        events := []
        result := Except.error ManageError.failure
        loggedError := true }

/-- Claim C4: a manage call that is cancelled (the subprocess raised the
cancellation) re-raises the distinct cancelled condition to its caller, logs
no error, fires no PackagesChanged event, and leaves the package cache entry
for the environment exactly as it was before the call. -/
theorem PipenvPackageManager.manage_c4 (cache : PkgCache) (envId : String)
    (opts : ManageOptions) (h : opts.install ≠ [] ∨ opts.uninstall ≠ []) :
    PipenvPackageManager.manage cache envId opts
        (Except.error ManageError.cancelled) =
      { cache := cache
        events := []
        result := Except.error ManageError.cancelled
        loggedError := false } := by
  have hcond : (opts.install.isEmpty && opts.uninstall.isEmpty) = false := by
    rcases h with h | h <;> cases hi : opts.install <;> cases hu : opts.uninstall <;>
      simp_all [List.isEmpty]
  simp [PipenvPackageManager.manage, hcond]

/-- Claim C4, witness: cancelling an install of one package leaves a concrete
one-entry cache untouched, fires nothing and logs nothing. -/
theorem PipenvPackageManager.manage_c4_witness :
    PipenvPackageManager.manage [("env-1", [⟨"numpy"⟩])] "env-1"
        { install := ["requests"], uninstall := [], upgrade := false }
        (Except.error ManageError.cancelled) =
      { cache := [("env-1", [⟨"numpy"⟩])]
        events := []
        result := Except.error ManageError.cancelled
        loggedError := false } :=
  PipenvPackageManager.manage_c4 _ _ _ (Or.inl (by decide))

/- ### Scope resolution (PipenvManager.get, pipenvManager.ts lines 131 to 148) -/

/-- From PipenvManager.get: for a path scope, the exact path binding wins;
otherwise the binding of the owning project of the path; otherwise the
designated global environment. The no-scope case returns the global
environment directly. -/
def PipenvManager.get (api : ExternalApi) (st : ManagerState)
    (scope : Option FsPath) : Option Env :=
  match scope with
  | none => st.globalEnv
  | some p =>
    match lookupBinding st.fsPathToEnv p with
    | some e => some e
    | none =>
      match api.projectFor p with
      | some pr =>
        match lookupBinding st.fsPathToEnv pr with
        | some e => some e
        | none => st.globalEnv
      | none => st.globalEnv

theorem lookupBinding_cons (k1 : FsPath) (v1 : Env)
    (rest : List (FsPath × Env)) (p : FsPath) :
    lookupBinding ((k1, v1) :: rest) p
      = if k1 = p then some v1 else lookupBinding rest p := by
  rw [lookupBinding]
  by_cases h : k1 = p
  · rw [if_pos (beq_iff_eq.mpr h), if_pos h]
  · rw [if_neg (by simp [h]), if_neg h]

theorem lookupBinding_bindSet (m : List (FsPath × Env)) (k p : FsPath)
    (v : Env) :
    lookupBinding (bindSet m k v) p
      = if p = k then some v else lookupBinding m p := by
  induction m with
  | nil =>
    rw [show bindSet [] k v = [(k, v)] from rfl, lookupBinding_cons]
    by_cases h : p = k
    · rw [if_pos h.symm, if_pos h]
    · rw [if_neg (fun e => h e.symm), if_neg h]
  | cons q rest ih =>
    obtain ⟨k1, v1⟩ := q
    simp only [bindSet]
    by_cases hk : k1 = k
    · rw [if_pos (beq_iff_eq.mpr hk), lookupBinding_cons, lookupBinding_cons]
      subst hk
      by_cases hp : p = k1
      · rw [if_pos hp.symm, if_pos hp]
      · rw [if_neg (fun e => hp e.symm), if_neg hp,
          if_neg (fun e => hp e.symm)]
    · rw [if_neg (by simp [hk]), lookupBinding_cons, lookupBinding_cons, ih]
      by_cases hp : k1 = p
      · have hpk : ¬p = k := fun e => hk (hp.trans e)
        simp [hp, hpk]
      · by_cases hpk : p = k <;> simp [hp, hpk, hk]

theorem loadStep_fold_single (api : ExternalApi) (u : Env)
    (hnw : ∀ q, api.persistedWs q = none) :
    ∀ (l : List FsPath) (acc : List Env × List (FsPath × Env)) (p : FsPath),
      (l.foldl (loadStep api [u]) acc).1 = acc.1 ∧
      lookupBinding (l.foldl (loadStep api [u]) acc).2 p
        = if p ∈ l then some u else lookupBinding acc.2 p := by
  intro l
  induction l with
  | nil =>
    intro acc p
    simp
  | cons q rest ih =>
    intro acc p
    have hstep : loadStep api [u] acc q = (acc.1, bindSet acc.2 q u) := by
      simp [loadStep, hnw q]
    rw [List.foldl_cons, hstep]
    refine ⟨(ih _ p).1, ?_⟩
    rw [(ih _ p).2, lookupBinding_bindSet]
    by_cases hp : p ∈ rest
    · simp [hp]
    · by_cases hq : p = q
      · subst hq
        simp [hp]
      · simp [hp, hq]

/-- Claim C6: resolution order of get with path scope. Step one: an exact path
binding is returned. Step two: without one, the binding of the owning project
of the path is returned. Step three, from the loadEnvMap loop of the alternate
pipenvManager source: when no selection is persisted anywhere and exactly one
environment is associated with the registered projects, every registered
project is implicitly bound to it, so get on such a project returns it. Step
four: with no applicable binding, get returns the designated global
environment, which loadEnvMap sets to the latest environment of the collection
when nothing is persisted. -/
theorem PipenvManager.get_c6
    (api : ExternalApi) (st : ManagerState) (collection : List Env)
    (p1 p2 p3 p4 pr : FsPath) (e1 e2 u : Env)
    (h1 : lookupBinding st.fsPathToEnv p1 = some e1)
    (h2a : lookupBinding st.fsPathToEnv p2 = none)
    (h2b : api.projectFor p2 = some pr)
    (h2c : lookupBinding st.fsPathToEnv pr = some e2)
    (h4a : lookupBinding st.fsPathToEnv p4 = none)
    (h4b : api.projectFor p4 = none)
    (hng : api.persistedGlobal = none)
    (hnw : ∀ q, api.persistedWs q = none)
    (hone : sortProjEnvs api collection = [u])
    (hp3 : p3 ∈ api.projects) :
    PipenvManager.get api st (some p1) = some e1 ∧
    PipenvManager.get api st (some p2) = some e2 ∧
    lookupBinding (PipenvManager.loadEnvMap api collection).fsPathToEnv p3
      = some u ∧
    PipenvManager.get api (PipenvManager.loadEnvMap api collection) (some p3)
      = some u ∧
    PipenvManager.get api st (some p4) = st.globalEnv ∧
    (PipenvManager.loadEnvMap api collection).globalEnv
      = getLatest collection := by
  have hmap : (PipenvManager.loadEnvMap api collection).fsPathToEnv
      = (api.projects.foldl (loadStep api (sortProjEnvs api collection))
          (collection, [])).2 := by
    simp [PipenvManager.loadEnvMap, hng]
  have h3 : lookupBinding
      (PipenvManager.loadEnvMap api collection).fsPathToEnv p3 = some u := by
    rw [hmap, hone]
    rw [(loadStep_fold_single api u hnw api.projects (collection, []) p3).2]
    simp [hp3]
  refine ⟨?_, ?_, h3, ?_, ?_, ?_⟩
  · simp [PipenvManager.get, h1]
  · simp [PipenvManager.get, h2a, h2b, h2c]
  · simp [PipenvManager.get, h3]
  · simp [PipenvManager.get, h4a, h4b]
  · simp [PipenvManager.loadEnvMap, hng]

/-- Claim C6, witness: the concrete one-project, one-environment scenario with
nothing persisted; the project directory is home/proj, the sole environment
lives at home/proj/.venv. -/
theorem PipenvManager.get_c6_witness :
    PipenvManager.get apiPlain
        ⟨[envVenv], [(["home", "proj"], envVenv)], some envVenv⟩
        (some ["home", "proj"]) = some envVenv ∧
    PipenvManager.get apiPlain
        ⟨[envVenv], [(["home", "proj"], envVenv)], some envVenv⟩
        (some ["home", "proj", ".venv"]) = some envVenv ∧
    lookupBinding
        (PipenvManager.loadEnvMap apiPlain [envVenv]).fsPathToEnv
        ["home", "proj"] = some envVenv ∧
    PipenvManager.get apiPlain (PipenvManager.loadEnvMap apiPlain [envVenv])
        (some ["home", "proj"]) = some envVenv ∧
    PipenvManager.get apiPlain
        ⟨[envVenv], [(["home", "proj"], envVenv)], some envVenv⟩
        (some ["elsewhere"]) = some envVenv ∧
    (PipenvManager.loadEnvMap apiPlain [envVenv]).globalEnv
      = getLatest [envVenv] :=
  PipenvManager.get_c6 apiPlain
    ⟨[envVenv], [(["home", "proj"], envVenv)], some envVenv⟩
    [envVenv] ["home", "proj"] ["home", "proj", ".venv"] ["home", "proj"]
    ["elsewhere"] ["home", "proj"] envVenv envVenv envVenv
    (by decide) (by decide) (by decide) (by decide) (by decide) (by decide)
    rfl (fun q => rfl) (by decide) (by decide)

/- ### Package merge helper (managers/common/utils.ts, spec section 4.3) -/

/-- A curated or installed package entry offered to the user. -/
structure Installable where
  name : String
  displayName : String
deriving DecidableEq, Repr

instance : DecidableRel (fun a b : Installable => a.name ≤ b.name) :=
  fun a b => inferInstanceAs (Decidable (a.name ≤ b.name))

instance : IsTotal Installable (fun a b => a.name ≤ b.name) :=
  ⟨fun a b => le_total a.name b.name⟩

instance : IsTrans Installable (fun a b => a.name ≤ b.name) :=
  ⟨fun _ _ _ hab hbc => le_trans hab hbc⟩

/-- Modelled from the spec: mergePackages from managers/common/utils.ts is not
part of the corpus; section 4.3 of the spec and the unit tests pin it down:
installed names absent from the curated list are appended as entries whose
display name is the name itself (the installed list is not deduplicated
internally), curated entries are kept as they are, and the result is sorted
ascending by name (localeCompare modelled as the string order). -/
def mergePackages (common : List Installable) (installed : List String) :
    List Installable :=
  let notInCommon :=
    installed.filter (fun pkg => !(common.any (fun c => c.name == pkg)))
  List.insertionSort (fun a b => a.name ≤ b.name)
    (common ++ notInCommon.map (fun pkg => { name := pkg, displayName := pkg }))

theorem countP_filter_eq (installed : List String) (n : String)
    (q : String → Bool) :
    List.countP (fun s => s == n) (installed.filter q)
      = if q n then List.countP (fun s => s == n) installed else 0 := by
  induction installed with
  | nil => simp
  | cons a l ih =>
    by_cases han : a = n
    · subst han
      cases hq : q a
      · simp [List.filter_cons, hq, ih]
      · simp [List.filter_cons, hq, ih, List.countP_cons]
    · have hb : (a == n) = false := beq_false_of_ne han
      cases hq : q a <;>
        simp [List.filter_cons, hq, ih, hb, List.countP_cons]

/-- Claim C8: the merged list is sorted ascending by name; it is a permutation
of the curated entries (display names preserved) followed by one entry per
installed name not present in the curated list, each with display name equal
to its name (so repeats inside the installed list repeat in the output); and
for any name, the number of output entries carrying it is the curated count
when the name is curated (the installed copy collapses into the curated
entry) and the full installed multiplicity otherwise. -/
theorem mergePackages_c8 (common : List Installable) (installed : List String)
    (n : String) :
    (mergePackages common installed).Sorted (fun a b => a.name ≤ b.name) ∧
    List.Perm (mergePackages common installed)
      (common ++ (installed.filter
          (fun p => !(common.any (fun c => c.name == p)))).map
        (fun p => { name := p, displayName := p })) ∧
    List.countP (fun c => c.name == n) (mergePackages common installed)
      = List.countP (fun c => c.name == n) common
        + (if common.any (fun c => c.name == n) then 0
           else List.countP (fun s => s == n) installed) := by
  have hperm : List.Perm (mergePackages common installed)
      (common ++ (installed.filter
          (fun p => !(common.any (fun c => c.name == p)))).map
        (fun p => { name := p, displayName := p })) :=
    List.perm_insertionSort _ _
  refine ⟨List.sorted_insertionSort _ _, hperm, ?_⟩
  rw [List.Perm.countP_eq _ hperm, List.countP_append, List.countP_map]
  have hcomp : ((fun c : Installable => c.name == n)
      ∘ (fun p : String => ({ name := p, displayName := p } : Installable)))
      = fun p => p == n := rfl
  rw [hcomp, countP_filter_eq]
  by_cases hc : common.any (fun c => c.name == n) <;> simp [hc]
